import Mathlib

/-!
Shallow embedding of the `ankh` relay bot (`src/main.rs`) and proofs about it.

The program is a Telegram relay: a webhook handler (`handle_update`) authorizes
inbound messages against a configured chat id, answers the `/start` command,
queues audio attachments into a debounced ordered queue (`MessageQueue`), and a
single background worker drains the queue after a quiet interval and dispatches
the batch with paced sends and message-id prediction/correction
(`send_audio_message`).

Outbound platform calls (send message, send audio, edit caption, delete
message) are modelled as recorded effects: each model function returns the list
of calls it issues, in order, together with its result.  Fallible behaviour of
the platform (the assigned message id of a send, or failure of a send or edit)
is supplied as explicit oracle arguments.
-/

namespace Ankh

/-! ### Integer parsing

Model of Rust `str::parse::<i64>()` as used in
`ChatId(secrets.me_id.parse()?)` and `ChatId(secrets.channel_id.parse()?)`:
an optional leading sign, then at least one ASCII digit, with an i64 range
check. -/

/-- Interpret a list of characters as a base-10 natural number; `none` if the
list is empty or contains a non-digit. -/
def digitsToNat? (cs : List Char) : Option Nat :=
  if cs.isEmpty then none
  else
    cs.foldl
      (fun acc c =>
        match acc with
        | none => none
        | some n => if c.isDigit then some (n * 10 + (c.toNat - 48)) else none)
      (some 0)

/-- Model of Rust `str::parse::<i64>()`: optional sign, digits, i64 range. -/
def parseInt? (s : String) : Option Int :=
  let (neg, digits) :=
    match s.toList with
    | '-' :: rest => (true, rest)
    | '+' :: rest => (false, rest)
    | cs => (false, cs)
  match digitsToNat? digits with
  | none => none
  | some n =>
    let v : Int := if neg then -(n : Int) else (n : Int)
    if -(2 ^ 63) ≤ v ∧ v < 2 ^ 63 then some v else none

/-! ### Admission gate: `handle_update` -/

/-- The fields of a Telegram message event that `handle_update` consults:
the originating chat id, its optional username, the optional message text,
the optional audio attachment (its file id), and the message's own id. -/
structure MessageEvent where
  chat_id : Int
  chat_username : Option String
  text : Option String
  audio_file_id : Option String
  message_id : Int
  deriving Repr, DecidableEq

/-- `update.kind`: only the `Message` variant is processed; every other
variant falls through `if let` with no effect. -/
inductive UpdateKind where
  | message (m : MessageEvent)
  | other
  deriving Repr, DecidableEq

/-- An outbound platform call issued by the admission gate. `addToQueue`
records the call to `message_queue.add_message` (the only queue mutation). -/
inductive Effect where
  | sendMessage (chatId : Int) (text : String)
  | addToQueue (fileId : String) (messageId : Int)
  | deleteMessage (chatId : Int) (messageId : Int)
  deriving Repr, DecidableEq

/-- The rejection text
`format!("Someone tried to use this bot {}", username or chat id)`. -/
def rejectionText (m : MessageEvent) : String :=
  "Someone tried to use this bot " ++ m.chat_username.getD (toString m.chat_id)

/-- The audio-attachment branch followed by the final
`bot.delete_message(message.chat.id, message.id)` of `handle_update`. -/
def afterAuth (m : MessageEvent) : List Effect :=
  (match m.audio_file_id with
   | some fid => [Effect.addToQueue fid m.message_id]
   | none => []) ++ [Effect.deleteMessage m.chat_id m.message_id]

/-- Model of `handle_update` (src/main.rs lines 167-215).  Returns the ordered
list of outbound calls it issues and whether it returns `Ok` (`false` means an
early `Err` return from the `?` on `secrets.me_id.parse()`; outbound calls
themselves are modelled as succeeding). -/
def handle_update (me_id : String) (u : UpdateKind) : List Effect × Bool :=
  match u with
  | .other => ([], true)
  | .message m =>
    match parseInt? me_id with
    | none => ([], false)
    | some authorized =>
      if m.chat_id ≠ authorized then
        ([Effect.sendMessage m.chat_id (rejectionText m)], true)
      else
        match m.text with
        | some t =>
          if t = "/start" then
            ([Effect.sendMessage m.chat_id "Welcome! Up and running."], true)
          else (afterAuth m, true)
        | none => (afterAuth m, true)

/-- Authorized `/start` message used to exhibit the missing deletion. -/
def startMsg : MessageEvent :=
  { chat_id := 42, chat_username := some "me", text := some "/start",
    audio_file_id := none, message_id := 7 }

/-! ### Startup configuration: `main` -/

/-- The four configuration strings `main` loads from the secret store. -/
structure Config where
  bot_token : String
  me_id : String
  channel_id : String
  public_url : String
  deriving Repr, DecidableEq

/-- Model of the configuration loading in `main` (src/main.rs lines 228-246):
each secret must be present (`.context(...)?`), and no further validation is
performed — in particular `ME_ID` is kept as a raw string and never parsed at
startup. -/
def loadConfig (get : String → Option String) : Option Config :=
  match get "BOT_TOKEN", get "ME_ID", get "CHANNEL_ID", get "PUBLIC_URL" with
  | some bt, some mi, some ci, some pu =>
    some { bot_token := bt, me_id := mi, channel_id := ci, public_url := pu }
  | _, _, _, _ => none

end Ankh

namespace Ankh

/-! ### Debounced ordered queue: `MessageQueue::add_message` (queue part)

`add_message` keeps `messages` sorted by `message_id`: it binary-searches for
the key and overwrites on a hit, inserts at the returned position on a miss
(src/main.rs lines 50-57).  The last-received timestamp and the
processing-flag logic of `add_message` are modelled separately below. -/

/-- An entry of the queue: the audio attachment and the id of the originating
message (its sequence key). -/
structure QueuedMessage where
  audio_file_id : String
  message_id : Int
  deriving Repr, DecidableEq

/-- The sequence keys of the queue, in order. -/
def keys (msgs : List QueuedMessage) : List Int :=
  msgs.map QueuedMessage.message_id

/-- The key at index `i` (defaulting to 0 out of range; the searches below
never read out of range). -/
def keyAt (msgs : List QueuedMessage) (i : Nat) : Int :=
  (msgs[i]?.map QueuedMessage.message_id).getD 0

/-- The queue invariant: keys strictly ascending (hence duplicate-free). -/
def sortedByKey (msgs : List QueuedMessage) : Prop :=
  msgs.Pairwise (fun a b => a.message_id < b.message_id)

/-- Rust `slice::binary_search_by_key` (called with the key extractor
`|m| m.message_id`), embedded with a fuel argument in place of the loop; any
fuel of at least `right - left` gives the loop's exact behaviour.  Returns
`ok index` of an element whose key equals `target`, or `error pos` with the
insertion position. -/
def bsearchLoop (msgs : List QueuedMessage) (target : Int) :
    Nat → Nat → Nat → Except Nat Nat
  | 0, left, _ => Except.error left
  | fuel + 1, left, right =>
    if left < right then
      let mid := left + (right - left) / 2
      let k := keyAt msgs mid
      if k < target then bsearchLoop msgs target fuel (mid + 1) right
      else if target < k then bsearchLoop msgs target fuel left mid
      else Except.ok mid
    else Except.error left

/-- `messages.binary_search_by_key(&message_id, |m| m.message_id)`. -/
def binary_search_by_key (msgs : List QueuedMessage) (target : Int) :
    Except Nat Nat :=
  bsearchLoop msgs target msgs.length 0 msgs.length

/-- The queue mutation of `MessageQueue::add_message`: overwrite in place on a
key hit, insert at the reported position on a miss. -/
def add_message (msgs : List QueuedMessage) (audio_file_id : String)
    (message_id : Int) : List QueuedMessage :=
  let new : QueuedMessage :=
    { audio_file_id := audio_file_id, message_id := message_id }
  match binary_search_by_key msgs message_id with
  | Except.ok pos => msgs.set pos new
  | Except.error pos => msgs.insertIdx pos new

/-- Queue resulting from a sequence of admissions, starting empty. -/
def addAll (adds : List (String × Int)) : List QueuedMessage :=
  adds.foldl (fun q a => add_message q a.1 a.2) []

/-! ### Relay dispatcher: `send_audio_message` and the dispatch pass

`send_audio_message` (src/main.rs lines 114-158) predicts the next channel
message id as `last_message_id + 1`, sends the audio with a caption linking to
the predicted id, and compares the platform-assigned id: on a match it stores
the predicted id; on a mismatch it issues one `edit_message_caption` call
referencing the actual id and then stores the actual id — but the `?` on the
edit call propagates an edit failure *before* the store, leaving the tracker
unchanged in that case.  The platform's behaviour is an oracle: `sendResult`
is the assigned message id (`none` = the send call failed) and `editOk` says
whether the correction call succeeds. -/

/-- The caption `format!("[Music: Reborn](https://t.me/the_ankh_music/...)")`
built around a message id. -/
def captionFor (n : Int) : String :=
  "[Music: Reborn](https://t.me/the_ankh_music/" ++ toString n ++ ")"

/-- An outbound call or log line issued during dispatch.  `sleepMs` records a
pacing delay, `logSendError` the `eprintln!` for a failed item. -/
inductive DispatchAction where
  | sendAudio (fileId : String) (caption : String)
  | editCaption (messageId : Int) (caption : String)
  | logSendError
  | sleepMs (ms : Nat)
  deriving Repr, DecidableEq

/-- Result of one `send_audio_message` call: the tracker value afterwards, the
platform calls issued in order, and whether the call returned `Ok`. -/
structure SendOutcome where
  newLast : Int
  actions : List DispatchAction
  ok : Bool
  deriving Repr, DecidableEq

/-- Model of `send_audio_message`.  A `channel_id` that fails to parse aborts
(via `?`) before the send call is issued. -/
def send_audio_message (channel_id : String) (last : Int)
    (msg : QueuedMessage) (sendResult : Option Int) (editOk : Bool) :
    SendOutcome :=
  match parseInt? channel_id with
  | none => { newLast := last, actions := [], ok := false }
  | some _ =>
    let predicted := last + 1
    match sendResult with
    | none =>
      { newLast := last,
        actions := [DispatchAction.sendAudio msg.audio_file_id
          (captionFor predicted)],
        ok := false }
    | some actual =>
      if actual = predicted then
        { newLast := predicted,
          actions := [DispatchAction.sendAudio msg.audio_file_id
            (captionFor predicted)],
          ok := true }
      else
        if editOk then
          { newLast := actual,
            actions := [DispatchAction.sendAudio msg.audio_file_id
                (captionFor predicted),
              DispatchAction.editCaption actual (captionFor actual)],
            ok := true }
        else
          { newLast := last,
            actions := [DispatchAction.sendAudio msg.audio_file_id
                (captionFor predicted),
              DispatchAction.editCaption actual (captionFor actual)],
            ok := false }

/-- Platform oracle for one batch item. -/
structure ItemOracle where
  sendResult : Option Int
  editOk : Bool
  deriving Repr, DecidableEq

/-- The dispatch loop over an enumerated drained batch
(src/main.rs lines 96-105): each item is sent via `send_audio_message`, a
failure is logged and the loop proceeds, and a 1000 ms pacing sleep follows
every item whose index `i` satisfies `i < total_count - 1`. -/
def dispatchFrom (channel_id : String) (total : Nat) :
    Nat → Int → List (QueuedMessage × ItemOracle) →
    Int × List DispatchAction
  | _, last, [] => (last, [])
  | i, last, (msg, orc) :: rest =>
    let out := send_audio_message channel_id last msg orc.sendResult orc.editOk
    let logActs := if out.ok then [] else [DispatchAction.logSendError]
    let pace :=
      if i < total - 1 then [DispatchAction.sleepMs 1000] else []
    let next := dispatchFrom channel_id total (i + 1) out.newLast rest
    (next.1, out.actions ++ logActs ++ pace ++ next.2)

/-- One full dispatch pass over a drained batch. -/
def dispatchBatch (channel_id : String) (last : Int)
    (batch : List (QueuedMessage × ItemOracle)) :
    Int × List DispatchAction :=
  dispatchFrom channel_id batch.length 0 last batch

/-- Recognizer for pacing delays in a dispatch trace. -/
def isSleep : DispatchAction → Bool
  | DispatchAction.sleepMs _ => true
  | _ => false

/-! ### Worker lifecycle: the `processing` flag

`add_message` ends with a critical section on the `processing` mutex
(src/main.rs lines 62-69): if the flag is clear, it is set and
`start_processing_task` spawns one worker; otherwise nothing happens.  The
spawned worker's final statement (line 109) clears the flag; both `break`
paths of its loop fall through to it.  A state counts the live workers
alongside the flag; admission critical sections and worker terminations
interleave arbitrarily. -/

/-- The `processing` flag and the number of live drain workers. -/
structure WorkerState where
  processing : Bool
  workers : Nat
  deriving Repr, DecidableEq

/-- Queue creation state: flag clear, no worker. -/
def initWorkerState : WorkerState :=
  { processing := false, workers := 0 }

/-- The flag critical section of one `add_message` call: check-and-set under
the mutex, spawning a worker exactly when the flag was clear. -/
def flagCheckStep (s : WorkerState) : WorkerState :=
  if s.processing then s
  else { processing := true, workers := s.workers + 1 }

/-- Interleaving semantics: a step is either an admission's flag critical
section, or the termination of a live worker, whose last statement clears the
flag. -/
inductive WStep : WorkerState → WorkerState → Prop
  | addCall (s : WorkerState) : WStep s (flagCheckStep s)
  | finish (s : WorkerState) (h : 0 < s.workers) :
      WStep s { processing := false, workers := s.workers - 1 }

/-- States reachable from queue creation by any interleaving. -/
def ReachableW (s : WorkerState) : Prop :=
  Relation.ReflTransGen WStep initWorkerState s

/-! ### Debounce timing

The worker loop (src/main.rs lines 83-89) sleeps 3 time units, then compares
the elapsed time since `last_received` against the quiet interval: if less,
it sleeps again; otherwise it proceeds to its single drain.  Time is
discrete; `arrivals` lists the times of `add_message` calls, each of which
unconditionally sets `last_received` to the current time (line 60), whether
the key was new or a replacement. -/

/-- The quiet interval (`Duration::from_secs(3)`). -/
def quietInterval : Nat := 3

/-- The value of `last_received` at time `t`: the latest admission time not
after `t`, or `init`, the value it held when the worker started. -/
def lastReceivedAt (init : Nat) (arrivals : List Nat) (t : Nat) : Nat :=
  (arrivals.filter (fun a => a ≤ t)).foldl max init

/-- The wake/recheck loop: from time `t` the worker sleeps to
`t + quietInterval` and drains there exactly when the last admission is at
least the quiet interval old; otherwise it loops.  Returns the drain time;
`none` if no drain happens within `fuel` wakes. -/
def drainTime (init : Nat) (arrivals : List Nat) : Nat → Nat → Option Nat
  | 0, _ => none
  | fuel + 1, t =>
    if lastReceivedAt init arrivals (t + quietInterval) + quietInterval ≤
        t + quietInterval then
      some (t + quietInterval)
    else drainTime init arrivals fuel (t + quietInterval)

/-! Lemmas about the binary search and the insertion. -/

theorem keyAt_eq_getElem {msgs : List QueuedMessage} {i : Nat}
    (hi : i < msgs.length) : keyAt msgs i = (msgs[i]).message_id := by
  simp [keyAt, List.getElem?_eq_getElem hi]

theorem keyAt_lt_keyAt {msgs : List QueuedMessage} (hs : sortedByKey msgs)
    {i j : Nat} (hij : i < j) (hj : j < msgs.length) :
    keyAt msgs i < keyAt msgs j := by
  have hi : i < msgs.length := hij.trans hj
  rw [sortedByKey, List.pairwise_iff_getElem] at hs
  rw [keyAt_eq_getElem hi, keyAt_eq_getElem hj]
  exact hs i j hi hj hij

theorem bsearchLoop_ok_spec (msgs : List QueuedMessage) (t : Int) :
    ∀ fuel left right i, right - left ≤ fuel →
      bsearchLoop msgs t fuel left right = Except.ok i →
      left ≤ i ∧ i < right ∧ keyAt msgs i = t := by
  intro fuel
  induction fuel with
  | zero =>
    intro left right i _ h
    simp [bsearchLoop] at h
  | succ fuel ih =>
    intro left right i hf h
    simp only [bsearchLoop] at h
    split_ifs at h with hlr h1 h2
    · have hrec := ih (left + (right - left) / 2 + 1) right i (by omega) h
      exact ⟨by omega, hrec.2.1, hrec.2.2⟩
    · have hrec := ih left (left + (right - left) / 2) i (by omega) h
      exact ⟨hrec.1, by omega, hrec.2.2⟩
    · injection h with h
      subst h
      exact ⟨by omega, by omega, by omega⟩

theorem bsearchLoop_err_spec (msgs : List QueuedMessage) (t : Int)
    (hs : sortedByKey msgs) :
    ∀ fuel left right p, right - left ≤ fuel → left ≤ right →
      right ≤ msgs.length →
      bsearchLoop msgs t fuel left right = Except.error p →
      left ≤ p ∧ p ≤ right ∧
      (∀ i, left ≤ i → i < p → keyAt msgs i < t) ∧
      (∀ i, p ≤ i → i < right → t < keyAt msgs i) := by
  intro fuel
  induction fuel with
  | zero =>
    intro left right p hf hlr _ h
    simp only [bsearchLoop] at h
    injection h with h
    subst h
    exact ⟨le_refl _, hlr, fun i h1 h2 => absurd h1 (by omega),
      fun i h1 h2 => absurd h1 (by omega)⟩
  | succ fuel ih =>
    intro left right p hf hlr hlen h
    simp only [bsearchLoop] at h
    split_ifs at h with hlr' h1 h2
    · have hrec := ih (left + (right - left) / 2 + 1) right p (by omega)
        (by omega) hlen h
      refine ⟨by omega, hrec.2.1, ?_, hrec.2.2.2⟩
      intro i hi1 hi2
      by_cases hc : i < left + (right - left) / 2 + 1
      · rcases Nat.lt_or_ge i (left + (right - left) / 2) with hc' | hc'
        · exact lt_trans (keyAt_lt_keyAt hs hc' (by omega)) h1
        · have : i = left + (right - left) / 2 := by omega
          rw [this]; exact h1
      · exact hrec.2.2.1 i (by omega) hi2
    · have hrec := ih left (left + (right - left) / 2) p (by omega)
        (by omega) (by omega) h
      refine ⟨hrec.1, by omega, hrec.2.2.1, ?_⟩
      intro i hi1 hi2
      rcases Nat.lt_or_ge i (left + (right - left) / 2) with hc | hc
      · exact hrec.2.2.2 i hi1 hc
      · rcases Nat.eq_or_lt_of_le hc with hc' | hc'
        · rw [← hc']; exact h2
        · exact lt_trans h2 (keyAt_lt_keyAt hs hc' (by omega))
    · injection h with h
      subst h
      exact ⟨le_refl _, hlr, fun i ha hb => absurd ha (by omega),
        fun i ha hb => absurd hb (by omega)⟩

theorem binary_search_ok {msgs : List QueuedMessage} {t : Int} {i : Nat}
    (h : binary_search_by_key msgs t = Except.ok i) :
    i < msgs.length ∧ keyAt msgs i = t := by
  have := bsearchLoop_ok_spec msgs t msgs.length 0 msgs.length i (by omega) h
  exact ⟨this.2.1, this.2.2⟩

theorem binary_search_err {msgs : List QueuedMessage} {t : Int} {p : Nat}
    (hs : sortedByKey msgs) (h : binary_search_by_key msgs t = Except.error p) :
    p ≤ msgs.length ∧
    (∀ i, i < p → keyAt msgs i < t) ∧
    (∀ i, p ≤ i → i < msgs.length → t < keyAt msgs i) := by
  have := bsearchLoop_err_spec msgs t hs msgs.length 0 msgs.length p (by omega)
    (by omega) (by omega) h
  exact ⟨this.2.1, fun i hi => this.2.2.1 i (by omega) hi, this.2.2.2⟩

theorem sortedByKey_iff_keys {msgs : List QueuedMessage} :
    sortedByKey msgs ↔ (keys msgs).Pairwise (· < ·) := by
  simp [sortedByKey, keys, List.pairwise_map]

theorem keys_set_of_keyAt {msgs : List QueuedMessage} {pos : Nat}
    {fid : String} {mid : Int} (hpos : pos < msgs.length)
    (hkey : keyAt msgs pos = mid) :
    keys (msgs.set pos { audio_file_id := fid, message_id := mid }) =
      keys msgs := by
  rw [keys, List.map_set]
  apply List.ext_getElem
  · simp [keys]
  · intro i h1 h2
    rw [List.getElem_set]
    by_cases hip : pos = i
    · subst hip
      rw [if_pos rfl, keyAt_eq_getElem hpos] at *
      simp [keys, ← hkey]
    · rw [if_neg hip]
      simp [keys]

theorem sorted_insertIdx {msgs : List QueuedMessage} {p : Nat}
    {fid : String} {mid : Int} (hs : sortedByKey msgs) (hp : p ≤ msgs.length)
    (hlo : ∀ i, i < p → keyAt msgs i < mid)
    (hhi : ∀ i, p ≤ i → i < msgs.length → mid < keyAt msgs i) :
    sortedByKey
      (msgs.insertIdx p { audio_file_id := fid, message_id := mid }) := by
  have hps := hs
  rw [sortedByKey, List.pairwise_iff_getElem] at hps ⊢
  intro i j hi hj hij
  have hlen : (msgs.insertIdx p
      ({ audio_file_id := fid, message_id := mid } : QueuedMessage)).length =
      msgs.length + 1 := List.length_insertIdx _ _ hp
  rw [hlen] at hi hj
  rcases Nat.lt_trichotomy j p with hj1 | hj1 | hj1
  · rw [List.getElem_insertIdx_of_lt msgs _ p i (by omega) (by omega),
      List.getElem_insertIdx_of_lt msgs _ p j (by omega) (by omega)]
    exact hps i j (by omega) (by omega) hij
  · subst hj1
    rw [List.getElem_insertIdx_of_lt msgs _ j i (by omega) (by omega),
      List.getElem_insertIdx_self msgs _ j (by omega)]
    have := hlo i (by omega)
    rw [keyAt_eq_getElem (by omega)] at this
    exact this
  · obtain ⟨m, rfl⟩ : ∃ m, j = p + m + 1 := ⟨j - p - 1, by omega⟩
    rw [List.getElem_insertIdx_add_succ msgs _ p m (by omega)]
    rcases Nat.lt_trichotomy i p with hi1 | hi1 | hi1
    · rw [List.getElem_insertIdx_of_lt msgs _ p i (by omega) (by omega)]
      exact hps i (p + m) (by omega) (by omega) (by omega)
    · subst hi1
      rw [List.getElem_insertIdx_self msgs _ i (by omega)]
      have := hhi (i + m) (by omega) (by omega)
      rw [keyAt_eq_getElem (by omega)] at this
      exact this
    · obtain ⟨n, rfl⟩ : ∃ n, i = p + n + 1 := ⟨i - p - 1, by omega⟩
      rw [List.getElem_insertIdx_add_succ msgs _ p n (by omega)]
      exact hps (p + n) (p + m) (by omega) (by omega) (by omega)

theorem binary_search_of_mem {msgs : List QueuedMessage} {t : Int}
    (hs : sortedByKey msgs) (hmem : t ∈ keys msgs) :
    ∃ i, binary_search_by_key msgs t = Except.ok i := by
  obtain ⟨j, hj, hkey⟩ : ∃ j, ∃ hj : j < msgs.length, keyAt msgs j = t := by
    rw [keys, List.mem_map] at hmem
    obtain ⟨m, hm, hmt⟩ := hmem
    obtain ⟨j, hj, rfl⟩ := List.mem_iff_getElem.mp hm
    exact ⟨j, hj, by rw [keyAt_eq_getElem hj, hmt]⟩
  cases hres : binary_search_by_key msgs t with
  | ok i => exact ⟨i, rfl⟩
  | error p =>
    exfalso
    have herr := binary_search_err hs hres
    rcases Nat.lt_or_ge j p with hc | hc
    · have := herr.2.1 j hc
      omega
    · have := herr.2.2 j hc hj
      omega

theorem add_message_of_mem {msgs : List QueuedMessage} {fid : String}
    {mid : Int} (hs : sortedByKey msgs) (hmem : mid ∈ keys msgs) :
    ∃ pos, pos < msgs.length ∧ keyAt msgs pos = mid ∧
      add_message msgs fid mid =
        msgs.set pos { audio_file_id := fid, message_id := mid } := by
  obtain ⟨i, hok⟩ := binary_search_of_mem hs hmem
  obtain ⟨hlt, hkey⟩ := binary_search_ok hok
  exact ⟨i, hlt, hkey, by simp [add_message, hok]⟩

theorem add_message_sorted {msgs : List QueuedMessage} (fid : String)
    (mid : Int) (hs : sortedByKey msgs) :
    sortedByKey (add_message msgs fid mid) := by
  cases hres : binary_search_by_key msgs mid with
  | ok i =>
    obtain ⟨hlt, hkey⟩ := binary_search_ok hres
    have heq : add_message msgs fid mid =
        msgs.set i { audio_file_id := fid, message_id := mid } := by
      simp [add_message, hres]
    rw [heq, sortedByKey_iff_keys, keys_set_of_keyAt hlt hkey,
      ← sortedByKey_iff_keys]
    exact hs
  | error p =>
    obtain ⟨hp, hlo, hhi⟩ := binary_search_err hs hres
    have heq : add_message msgs fid mid =
        msgs.insertIdx p { audio_file_id := fid, message_id := mid } := by
      simp [add_message, hres]
    rw [heq]
    exact sorted_insertIdx hs hp hlo hhi

theorem addAll_sorted_from (adds : List (String × Int)) :
    ∀ q, sortedByKey q →
      sortedByKey (adds.foldl (fun q a => add_message q a.1 a.2) q) := by
  induction adds with
  | nil => intro q hq; exact hq
  | cons a rest ih =>
    intro q hq
    exact ih _ (add_message_sorted a.1 a.2 hq)

theorem addAll_sorted (adds : List (String × Int)) :
    sortedByKey (addAll adds) :=
  addAll_sorted_from adds [] List.Pairwise.nil

end Ankh

namespace Ankh

/-! ### Theorems: admission gate -/

/-- C1 counterexample: on the authorized `/start` message the handler issues
only the canned reply — `delete_message` is never called, because the command
branch returns before the deletion statement. -/
theorem C1_start_no_delete :
    Effect.deleteMessage 42 7 ∉ (handle_update "42" (UpdateKind.message startMsg)).1 ∧
    (handle_update "42" (UpdateKind.message startMsg)).1 =
      [Effect.sendMessage 42 "Welcome! Up and running."] := by
  decide

/-- C1 (amended): for every authorized message whose text is exactly
`"/start"`, the handler sends the canned reply, does not mutate the queue, and
returns without deleting the originating message (the command branch returns
`Ok` before the deletion statement). -/
theorem C1_command_bypass (me_id : String) (auth : Int) (m : MessageEvent)
    (hp : parseInt? me_id = some auth) (hc : m.chat_id = auth)
    (ht : m.text = some "/start") :
    (handle_update me_id (UpdateKind.message m)).1 =
        [Effect.sendMessage m.chat_id "Welcome! Up and running."] ∧
    (handle_update me_id (UpdateKind.message m)).2 = true ∧
    (∀ fid mid, Effect.addToQueue fid mid ∉
        (handle_update me_id (UpdateKind.message m)).1) ∧
    (∀ cid mid, Effect.deleteMessage cid mid ∉
        (handle_update me_id (UpdateKind.message m)).1) := by
  simp [handle_update, hp, hc, ht]

/-- Witness for `C1_command_bypass` at a concrete input. -/
theorem C1_command_bypass_witness :
    (handle_update "42" (UpdateKind.message startMsg)).1 =
      [Effect.sendMessage startMsg.chat_id "Welcome! Up and running."] :=
  (C1_command_bypass "42" 42 startMsg (by decide) (by decide) (by decide)).1

/-- C7 (confirmed): an inbound message from a chat other than the configured
authorized id yields exactly one rejection reply to the originator
(identifying it by username or numeric id), no queue mutation, and no deletion
of the originating message. -/
theorem C7_unauthorized_rejected (me_id : String) (auth : Int) (m : MessageEvent)
    (hp : parseInt? me_id = some auth) (hc : m.chat_id ≠ auth) :
    (handle_update me_id (UpdateKind.message m)) =
        ([Effect.sendMessage m.chat_id (rejectionText m)], true) ∧
    (∀ fid mid, Effect.addToQueue fid mid ∉
        (handle_update me_id (UpdateKind.message m)).1) ∧
    (∀ cid mid, Effect.deleteMessage cid mid ∉
        (handle_update me_id (UpdateKind.message m)).1) := by
  simp [handle_update, hp, hc]

/-- Witness for `C7_unauthorized_rejected` at a concrete input. -/
theorem C7_unauthorized_rejected_witness :
    (handle_update "42" (UpdateKind.message
        { chat_id := 5, chat_username := none, text := some "hi",
          audio_file_id := none, message_id := 9 })) =
      ([Effect.sendMessage 5 (rejectionText
        { chat_id := 5, chat_username := none, text := some "hi",
          audio_file_id := none, message_id := 9 })], true) :=
  (C7_unauthorized_rejected "42" 42
    { chat_id := 5, chat_username := none, text := some "hi",
      audio_file_id := none, message_id := 9 }
    (by decide) (by decide)).1

/-- C10 (confirmed): if the configured `ME_ID` string does not parse as an
integer, `handle_update` returns an error on every message event before the
authorization branch — no reply, no queue mutation, no deletion — and startup
configuration loading accepts the malformed string (it only checks presence,
never parsing). -/
theorem C10_malformed_me_id (me_id : String) (hp : parseInt? me_id = none) :
    (∀ m : MessageEvent,
      handle_update me_id (UpdateKind.message m) = ([], false)) ∧
    (∀ get : String → Option String,
      get "BOT_TOKEN" = some "tok" → get "ME_ID" = some me_id →
      get "CHANNEL_ID" = some "chan" → get "PUBLIC_URL" = some "url" →
      loadConfig get = some
        { bot_token := "tok", me_id := me_id, channel_id := "chan",
          public_url := "url" }) := by
  constructor
  · intro m
    simp [handle_update, hp]
  · intro get h1 h2 h3 h4
    simp [loadConfig, h1, h2, h3, h4]

/-- Witness for `C10_malformed_me_id` at a concrete input. -/
theorem C10_malformed_me_id_witness :
    handle_update "not-a-number" (UpdateKind.message startMsg) = ([], false) :=
  (C10_malformed_me_id "not-a-number" (by decide)).1 startMsg

/-! ### Theorems: queue ordering and deduplication (C3) -/

/-- C3 (confirmed): after any sequence of admissions the queue is strictly
ascending by sequence key with no duplicates; admitting an already-present key
overwrites that entry in place (same position, same length, same key list);
and admitting keys 5, 3, 7 in that order yields the batch 3, 5, 7.  A drain
(`msgs.drain(..)`) returns the whole list in this order.  The second
concrete conjunct is the dedup scenario: key 3 with content A, then key 3
with content B, yields exactly one entry whose content is B. -/
theorem C3_queue_invariants :
    (∀ adds : List (String × Int), sortedByKey (addAll adds)) ∧
    (∀ (msgs : List QueuedMessage) (fid : String) (mid : Int),
      sortedByKey msgs → mid ∈ keys msgs →
      ∃ pos, pos < msgs.length ∧ keyAt msgs pos = mid ∧
        add_message msgs fid mid =
          msgs.set pos { audio_file_id := fid, message_id := mid } ∧
        (add_message msgs fid mid).length = msgs.length ∧
        keys (add_message msgs fid mid) = keys msgs) ∧
    keys (addAll [("a", 5), ("b", 3), ("c", 7)]) = [3, 5, 7] ∧
    addAll [("A", 3), ("B", 3)] =
      [{ audio_file_id := "B", message_id := 3 }] := by
  refine ⟨addAll_sorted, ?_, by decide, by decide⟩
  intro msgs fid mid hs hmem
  obtain ⟨pos, hlt, hkey, heq⟩ := add_message_of_mem hs hmem
  refine ⟨pos, hlt, hkey, heq, ?_, ?_⟩
  · rw [heq]
    simp
  · rw [heq]
    exact keys_set_of_keyAt hlt hkey

/-! ### Theorems: identifier prediction, correction, and dispatch
(C2, C4, C9, C8) -/

/-- C2 counterexample: tracker 10, platform assigns 20 (≠ 11), correction
call fails — the tracker stays 10 instead of being updated to 20. -/
theorem C2_counterexample :
    (send_audio_message "2" 10 { audio_file_id := "g", message_id := 4 }
      (some 20) false).newLast = 10 ∧
    (send_audio_message "2" 10 { audio_file_id := "g", message_id := 4 }
      (some 20) false).newLast ≠ 20 := by decide

/-- C2 (amended): when the assigned id differs from the prediction and the
correction call itself fails, the `?` on the edit call returns the error
before the tracker store runs: the tracker keeps its previous value (the next
prediction is computed from the stale value, not from the actual id), the
call reports failure, and the single correction call referencing the actual
id was still issued. -/
theorem C2_correction_failure (ch : String) (v last actual : Int)
    (msg : QueuedMessage) (hch : parseInt? ch = some v)
    (hne : actual ≠ last + 1) :
    (send_audio_message ch last msg (some actual) false).newLast = last ∧
    (send_audio_message ch last msg (some actual) false).ok = false ∧
    (send_audio_message ch last msg (some actual) false).actions =
      [DispatchAction.sendAudio msg.audio_file_id (captionFor (last + 1)),
       DispatchAction.editCaption actual (captionFor actual)] := by
  simp [send_audio_message, hch, hne]

/-- Witness for `C2_correction_failure` at a concrete input. -/
theorem C2_correction_failure_witness :
    (send_audio_message "2" 0 { audio_file_id := "g", message_id := 4 }
      (some 7) false).newLast = 0 :=
  (C2_correction_failure "2" 2 0 7 { audio_file_id := "g", message_id := 4 }
    (by decide) (by decide)).1

/-- C4 counterexample: tracker 0, platform assigns 5 (≠ 1), correction call
fails — the correction call referencing 5 is issued, but the tracker is not
updated to 5 (refuting the unconditional "tracker is updated to X"). -/
theorem C4_counterexample :
    (send_audio_message "1" 0 { audio_file_id := "f", message_id := 1 }
      (some 5) false).actions =
      [DispatchAction.sendAudio "f" (captionFor 1),
       DispatchAction.editCaption 5 (captionFor 5)] ∧
    (send_audio_message "1" 0 { audio_file_id := "f", message_id := 1 }
      (some 5) false).newLast ≠ 5 := by decide

/-- C4 (amended): with tracker value T the predicted identifier is T+1 and is
referenced by the send's caption; if the platform assigns exactly T+1, no
correction call is issued and the tracker becomes T+1; if it assigns X ≠ T+1,
exactly one correction call referencing X is issued and the tracker is
updated to X provided the correction call succeeds (if the correction call
fails the tracker keeps the old value T). -/
theorem C4_prediction (ch : String) (v last actual : Int)
    (msg : QueuedMessage) (editOk : Bool) (hch : parseInt? ch = some v) :
    (actual = last + 1 →
      send_audio_message ch last msg (some actual) editOk =
        { newLast := last + 1,
          actions := [DispatchAction.sendAudio msg.audio_file_id
            (captionFor (last + 1))],
          ok := true }) ∧
    (actual ≠ last + 1 →
      (send_audio_message ch last msg (some actual) editOk).actions =
        [DispatchAction.sendAudio msg.audio_file_id (captionFor (last + 1)),
         DispatchAction.editCaption actual (captionFor actual)] ∧
      (editOk = true →
        (send_audio_message ch last msg (some actual) editOk).newLast =
          actual) ∧
      (editOk = false →
        (send_audio_message ch last msg (some actual) editOk).newLast =
          last)) := by
  constructor
  · intro h
    subst h
    simp [send_audio_message, hch]
  · intro h
    cases editOk <;> simp [send_audio_message, hch, h]

/-- Witness for `C4_prediction` at a concrete input (success case). -/
theorem C4_prediction_witness :
    send_audio_message "3" 1 { audio_file_id := "h", message_id := 2 }
      (some 2) true =
      { newLast := 2,
        actions := [DispatchAction.sendAudio "h" (captionFor 2)],
        ok := true } :=
  (C4_prediction "3" 3 1 2 { audio_file_id := "h", message_id := 2 } true
    (by decide)).1 rfl

/-- C9 (confirmed): when the send call for an item fails, the tracker is left
unchanged by the item and the call reports failure; the dispatch loop logs
the error and proceeds to the rest of the batch with the same tracker value,
so the next item's prediction uses it.  The failed item is not re-queued:
the tail of the trace is exactly the dispatch of the remaining items. -/
theorem C9_send_failure (ch : String) (total i : Nat) (last : Int)
    (msg : QueuedMessage) (eo : Bool)
    (rest : List (QueuedMessage × ItemOracle)) :
    (send_audio_message ch last msg none eo).newLast = last ∧
    (send_audio_message ch last msg none eo).ok = false ∧
    dispatchFrom ch total i last
        ((msg, { sendResult := none, editOk := eo }) :: rest) =
      ((dispatchFrom ch total (i + 1) last rest).1,
        (send_audio_message ch last msg none eo).actions ++
          [DispatchAction.logSendError] ++
          (if i < total - 1 then [DispatchAction.sleepMs 1000] else []) ++
          (dispatchFrom ch total (i + 1) last rest).2) := by
  have h1 : (send_audio_message ch last msg none eo).newLast = last := by
    rcases hp : parseInt? ch with _ | v <;> simp [send_audio_message, hp]
  have h2 : (send_audio_message ch last msg none eo).ok = false := by
    rcases hp : parseInt? ch with _ | v <;> simp [send_audio_message, hp]
  refine ⟨h1, h2, ?_⟩
  simp [dispatchFrom, h1, h2]

/-- No pacing sleep is ever issued inside `send_audio_message` itself. -/
theorem send_actions_no_sleep (ch : String) (last : Int) (msg : QueuedMessage)
    (sr : Option Int) (eo : Bool) :
    (send_audio_message ch last msg sr eo).actions.countP isSleep = 0 := by
  rcases hp : parseInt? ch with _ | v
  · simp [send_audio_message, hp]
  · rcases sr with _ | actual
    · simp [send_audio_message, hp, isSleep]
    · by_cases hac : actual = last + 1
      · simp [send_audio_message, hp, hac, isSleep]
      · cases eo <;> simp [send_audio_message, hp, hac, isSleep]

/-- The per-item segment (send actions plus the failure log line) is nonempty
and ends in a non-sleep action. -/
theorem send_segment_last (ch : String) (last : Int) (msg : QueuedMessage)
    (sr : Option Int) (eo : Bool) :
    ∃ a, ((send_audio_message ch last msg sr eo).actions ++
        (if (send_audio_message ch last msg sr eo).ok then []
         else [DispatchAction.logSendError])).getLast? = some a ∧
      isSleep a = false := by
  rcases hp : parseInt? ch with _ | v
  · exact ⟨DispatchAction.logSendError, by simp [send_audio_message, hp], rfl⟩
  · rcases sr with _ | actual
    · exact ⟨DispatchAction.logSendError,
        by simp [send_audio_message, hp], rfl⟩
    · by_cases hac : actual = last + 1
      · exact ⟨DispatchAction.sendAudio msg.audio_file_id
            (captionFor (last + 1)),
          by simp [send_audio_message, hp, hac], rfl⟩
      · cases eo
        · exact ⟨DispatchAction.logSendError,
            by simp [send_audio_message, hp, hac], rfl⟩
        · exact ⟨DispatchAction.editCaption actual (captionFor actual),
            by simp [send_audio_message, hp, hac], rfl⟩

theorem dispatchFrom_sleep_count (ch : String) (total : Nat) :
    ∀ (rest : List (QueuedMessage × ItemOracle)) (i : Nat) (last : Int),
      i + rest.length = total →
      (dispatchFrom ch total i last rest).2.countP isSleep =
        rest.length - 1 := by
  intro rest
  induction rest with
  | nil =>
    intro i last h
    simp [dispatchFrom]
  | cons item rest ih =>
    intro i last h
    obtain ⟨msg, orc⟩ := item
    have hseg := send_actions_no_sleep ch last msg orc.sendResult orc.editOk
    by_cases h0 : rest = []
    · subst h0
      have hni : ¬i < total - 1 := by simp at h; omega
      simp [dispatchFrom, hni, hseg, isSleep]
    · have hpos : 0 < rest.length := List.length_pos.mpr h0
      have hi : i < total - 1 := by simp at h; omega
      have hih := ih (i + 1)
        (send_audio_message ch last msg orc.sendResult orc.editOk).newLast
        (by simp at h ⊢; omega)
      simp [dispatchFrom, hi, hseg, hih, List.countP_append, isSleep]
      cases hok : (send_audio_message ch last msg orc.sendResult
          orc.editOk).ok <;> simp [isSleep] <;> omega

theorem dispatchFrom_last_no_sleep (ch : String) (total : Nat) :
    ∀ (rest : List (QueuedMessage × ItemOracle)) (i : Nat) (last : Int),
      i + rest.length = total → rest ≠ [] →
      ∃ a, (dispatchFrom ch total i last rest).2.getLast? = some a ∧
        isSleep a = false := by
  intro rest
  induction rest with
  | nil =>
    intro i last _ h
    exact absurd rfl h
  | cons item rest ih =>
    intro i last h _
    obtain ⟨msg, orc⟩ := item
    by_cases h0 : rest = []
    · subst h0
      have hni : ¬i < total - 1 := by simp at h; omega
      obtain ⟨a, ha, hs⟩ :=
        send_segment_last ch last msg orc.sendResult orc.editOk
      refine ⟨a, ?_, hs⟩
      simpa [dispatchFrom, hni] using ha
    · obtain ⟨a, ha, hs⟩ := ih (i + 1)
        (send_audio_message ch last msg orc.sendResult orc.editOk).newLast
        (by simp at h ⊢; omega) h0
      refine ⟨a, ?_, hs⟩
      simp [dispatchFrom, List.getLast?_append, ha]

/-- C8 (confirmed): a dispatch pass over a drained batch of size k issues
exactly k - 1 pacing sleeps (so none at all for k = 1), and the trace never
ends with a pacing sleep — no delay follows the final item. -/
theorem C8_pacing (ch : String) (last : Int)
    (batch : List (QueuedMessage × ItemOracle)) (hne : batch ≠ []) :
    (dispatchBatch ch last batch).2.countP isSleep = batch.length - 1 ∧
    ∃ a, (dispatchBatch ch last batch).2.getLast? = some a ∧
      isSleep a = false :=
  ⟨dispatchFrom_sleep_count ch batch.length batch 0 last (by simp),
   dispatchFrom_last_no_sleep ch batch.length batch 0 last (by simp) hne⟩

/-! ### Theorems: single-worker invariant (C5) and debounce (C6) -/

/-- The single-worker invariant is preserved by every step. -/
theorem workerInvariant_step {s s' : WorkerState}
    (hs : s.workers ≤ 1 ∧ (s.processing = false → s.workers = 0))
    (h : WStep s s') :
    s'.workers ≤ 1 ∧ (s'.processing = false → s'.workers = 0) := by
  cases h with
  | addCall =>
    by_cases hp : s.processing
    · simpa [flagCheckStep, hp] using hs
    · have h0 : s.workers = 0 := hs.2 (by simpa using hp)
      simp [flagCheckStep, hp, h0]
  | finish hw =>
    have h1 : s.workers = 1 := by omega
    simp [h1]

/-- C5 (confirmed): at most one drain worker is live in any reachable state,
and the flag is clear only when no worker is live; any number of admission
critical sections run against an idle queue start exactly one worker (the
check-and-set is atomic under the `processing` mutex); and the only step that
clears a set flag is the termination of a live worker. -/
theorem C5_single_worker :
    (∀ s, ReachableW s →
      s.workers ≤ 1 ∧ (s.processing = false → s.workers = 0)) ∧
    (∀ n, 1 ≤ n →
      flagCheckStep^[n] initWorkerState =
        { processing := true, workers := 1 }) ∧
    (∀ s s', WStep s s' → s.processing = true → s'.processing = false →
      0 < s.workers ∧
      s' = { processing := false, workers := s.workers - 1 }) := by
  refine ⟨?_, ?_, ?_⟩
  · intro s h
    induction h with
    | refl => simp [initWorkerState]
    | tail _ hstep ih => exact workerInvariant_step ih hstep
  · intro n hn
    induction n with
    | zero => omega
    | succ m ihm =>
      rcases Nat.eq_zero_or_pos m with h0 | hm
      · subst h0
        simp [flagCheckStep, initWorkerState]
      · rw [Function.iterate_succ_apply', ihm (by omega)]
        simp [flagCheckStep]
  · intro s s' hstep hp hp'
    cases hstep with
    | addCall =>
      by_cases hq : s.processing
      · rw [flagCheckStep, if_pos hq] at hp'
        rw [hp] at hp'
        exact absurd hp' (by simp)
      · exact absurd hp (by simpa using hq)
    | finish hw => exact ⟨hw, rfl⟩

/-- Witness for `C5_single_worker`: three admissions to an idle queue start
exactly one worker. -/
theorem C5_single_worker_witness :
    flagCheckStep^[3] initWorkerState =
      { processing := true, workers := 1 } :=
  C5_single_worker.2.1 3 (by decide)

theorem foldl_max_init_le (l : List Nat) : ∀ init, init ≤ l.foldl max init := by
  induction l with
  | nil => intro init; simp
  | cons b l ih =>
    intro init
    calc init ≤ max init b := le_max_left _ _
      _ ≤ _ := ih _

theorem foldl_max_mem_le (l : List Nat) :
    ∀ init a, a ∈ l → a ≤ l.foldl max init := by
  induction l with
  | nil =>
    intro _ _ h
    cases h
  | cons b l ih =>
    intro init a h
    rcases List.mem_cons.mp h with rfl | h
    · calc a ≤ max init a := le_max_right _ _
        _ ≤ _ := foldl_max_init_le l _
    · exact ih (max init b) a h

/-- Every admission time in range is bounded by the tracked last-arrival. -/
theorem le_lastReceivedAt (init : Nat) (arrivals : List Nat) {a t : Nat}
    (ha : a ∈ arrivals) (hat : a ≤ t) :
    a ≤ lastReceivedAt init arrivals t :=
  foldl_max_mem_le _ init a (List.mem_filter.mpr ⟨ha, by simpa using hat⟩)

/-- The initial last-arrival value is bounded by the tracked value. -/
theorem init_le_lastReceivedAt (init : Nat) (arrivals : List Nat) (t : Nat) :
    init ≤ lastReceivedAt init arrivals t :=
  foldl_max_init_le _ init

/-- C6 (confirmed): (1) whenever the worker drains at time `t`, both the
worker's starting last-arrival value and every admission at or before `t` lie
at least the quiet interval in the past — no drain until the quiet interval
has elapsed since the most recent admission; (2) at a wake within the quiet
interval of some admission, the worker does not drain but waits again. -/
theorem C6_debounce :
    (∀ init arrivals fuel t0 t,
      drainTime init arrivals fuel t0 = some t →
      init + quietInterval ≤ t ∧
      ∀ a ∈ arrivals, a ≤ t → a + quietInterval ≤ t) ∧
    (∀ init arrivals fuel t0 a, a ∈ arrivals → a ≤ t0 + quietInterval →
      t0 + quietInterval < a + quietInterval →
      drainTime init arrivals (fuel + 1) t0 =
        drainTime init arrivals fuel (t0 + quietInterval)) := by
  constructor
  · intro init arrivals fuel
    induction fuel with
    | zero =>
      intro t0 t h
      simp [drainTime] at h
    | succ fuel ih =>
      intro t0 t h
      rw [drainTime] at h
      split_ifs at h with hg
      · injection h with h
        subst h
        refine ⟨?_, ?_⟩
        · have := init_le_lastReceivedAt init arrivals (t0 + quietInterval)
          omega
        · intro a ha hat
          have := le_lastReceivedAt init arrivals ha hat
          omega
      · exact ih (t0 + quietInterval) t h
  · intro init arrivals fuel t0 a ha h1 h2
    rw [drainTime]
    rw [if_neg]
    have := le_lastReceivedAt init arrivals ha h1
    omega

/-- Witness for `C6_debounce`: with an admission at time 2, the drain happens
at time 6 (quiet since 2), and the wake at time 3 does not drain. -/
theorem C6_debounce_witness :
    (0 + quietInterval ≤ 6 ∧
      ∀ a ∈ [2], a ≤ 6 → a + quietInterval ≤ 6) ∧
    drainTime 0 [2] 2 0 = drainTime 0 [2] 1 (0 + quietInterval) :=
  ⟨C6_debounce.1 0 [2] 5 0 6 (by decide),
   C6_debounce.2 0 [2] 1 0 2 (by decide) (by decide) (by decide)⟩

/-- Witness for `C8_pacing` at a concrete two-item batch. -/
theorem C8_pacing_witness :
    (dispatchBatch "1" 0
        [({ audio_file_id := "x", message_id := 1 },
          { sendResult := some 1, editOk := true }),
         ({ audio_file_id := "y", message_id := 2 },
          { sendResult := some 2, editOk := true })]).2.countP isSleep =
      2 - 1 ∧
    ∃ a, (dispatchBatch "1" 0
        [({ audio_file_id := "x", message_id := 1 },
          { sendResult := some 1, editOk := true }),
         ({ audio_file_id := "y", message_id := 2 },
          { sendResult := some 2, editOk := true })]).2.getLast? = some a ∧
      isSleep a = false :=
  C8_pacing "1" 0
    [({ audio_file_id := "x", message_id := 1 },
      { sendResult := some 1, editOk := true }),
     ({ audio_file_id := "y", message_id := 2 },
      { sendResult := some 2, editOk := true })] (by decide)

/-- Witness for `C3_queue_invariants` at a concrete input. -/
theorem C3_queue_invariants_witness :
    ∃ pos, pos < ([{ audio_file_id := "A", message_id := 3 }] :
        List QueuedMessage).length ∧
      keyAt [{ audio_file_id := "A", message_id := 3 }] pos = 3 ∧
      add_message [{ audio_file_id := "A", message_id := 3 }] "B" 3 =
        ([{ audio_file_id := "A", message_id := 3 }] :
          List QueuedMessage).set pos { audio_file_id := "B", message_id := 3 } ∧
      (add_message [{ audio_file_id := "A", message_id := 3 }] "B" 3).length =
        ([{ audio_file_id := "A", message_id := 3 }] :
          List QueuedMessage).length ∧
      keys (add_message [{ audio_file_id := "A", message_id := 3 }] "B" 3) =
        keys [{ audio_file_id := "A", message_id := 3 }] :=
  C3_queue_invariants.2.1 [{ audio_file_id := "A", message_id := 3 }] "B" 3
    (List.pairwise_singleton _ _) (by decide)

end Ankh
